import Mathlib

/-!
# The scheduling core of the spider crawler

A shallow embedding of `scheduler/scheduler.go`: the `Scheduler` struct, its
methods `New`, `Add`, `Cur`, `Err`, `Next`, `Once`, `Start`, `Stop`, `Update`
and `restart`, and the properties the specification states about them.

The packages `domain`, `queue`, `page`, `storage` and `config` are imported by
the scheduler and are not part of the embedded file; the little the scheduler
uses of them is modelled from the specification and marked so.  The function
`domain.FromURL` is a parameter `fromURL` of every definition that calls it.

Concurrency is made explicit.  The channel `notify` is written only by the
pacer goroutines, so what `Next` receives from it is an input: the list of
signals its `select` receives, in order.  The channel `shutdown` is written by
`Stop`, so its buffer is part of the state, with its capacity.
-/

set_option linter.dupNamespace false

namespace Spider

/-- Go error values met by the scheduler.  The three sentinels are compared by
identity in the source (`scheduler.ErrQueueNotFound`, `queue.ErrEmpty`,
`backend.ErrNotFound`); every other error is `other`. -/
inductive Error
  | ErrQueueNotFound
  | ErrEmpty
  | ErrNotFound
  | other (msg : String)
  deriving DecidableEq, Repr

/-- Modelled from the spec: the type `domain.Domain` of package `domain`
(Domain Policy): identity string, base URL, ordered list of seed URLs, fetch
delay. -/
structure Domain where
  Name : String
  URL : String
  StartPoints : List String
  Delay : Nat
  deriving DecidableEq, Repr

/-- Modelled from the spec: the method `(*domain.Domain).Domain()` of package
`domain`, the identity string of the policy. -/
def Domain.Domain (d : Domain) : String := d.Name

/-- Modelled from the spec: the interface `queue.Queue` of package `queue`
(Fetch Queue): an ordered sequence of pending URL strings.  `fault` is a
failure of the backend, which `Enqueue` and `Dequeue` report as their error
(the spec's "queue backend failure", for `Dequeue` "anything other than
empty"). -/
structure Queue where
  items : List String
  fault : Option String
  deriving DecidableEq, Repr

/-- Modelled from the spec: `Enqueue(url)` of package `queue` appends and
returns no error, or returns the error of a failing backend and appends
nothing. -/
def Queue.Enqueue (q : Queue) (url : String) : Queue × Option Error :=
  match q.fault with
  | some m => (q, some (Error.other m))
  | none => ({ q with items := q.items ++ [url] }, none)

/-- Modelled from the spec: `Dequeue()` of package `queue` removes and returns
the head or signals `ErrEmpty`; a backend failure is any other error. -/
def Queue.Dequeue (q : Queue) : Queue × String × Option Error :=
  match q.fault with
  | some m => (q, "", some (Error.other m))
  | none =>
    match q.items with
    | [] => (q, "", some Error.ErrEmpty)
    | u :: rest => ({ q with items := rest }, u, none)

/-- Modelled from the spec: the factory `New(name)` of package `queue`
produces an independent queue instance on the same backend. -/
def Queue.New (q : Queue) (_name : String) : Queue :=
  { items := [], fault := q.fault }

/-- Modelled from the spec: the type `page.Page` of package `page`: the URL
and the remaining fields of the record, which the scheduler never reads.  The
Go zero value of the remaining fields is the empty list. -/
structure Page where
  URL : String
  Rest : List (String × String)
  deriving DecidableEq, Repr

/-- The composite literal `page.Page{URL: url}`. -/
def Page.ofURL (url : String) : Page := { URL := url, Rest := [] }

/-- Modelled from the spec: the type `config.Config` of package `config`, the
set of domain policies. -/
structure Config where
  Domains : List Domain
  deriving DecidableEq, Repr

/-- Modelled from the spec: the type `storage.Storage` of package `storage`
(Page Store): the stored configuration and the page records saved so far, the
most recent first.  `fault` is a failure of the backend. -/
structure Storage where
  config : Config
  pages : List Page
  fault : Option String
  deriving DecidableEq, Repr

/-- Modelled from the spec: `GetConfig` of package `storage` loads the domain
policy set and fails on a read error. -/
def Storage.GetConfig (st : Storage) (c : Config) : Config × Option Error :=
  match st.fault with
  | some m => (c, some (Error.other m))
  | none => (st.config, none)

/-- Modelled from the spec: `GetPage(url, p)` of package `storage` fills `p`
with the record saved under `url`, fails with `ErrNotFound` when there is
none, and with another error when the backend fails. -/
def Storage.GetPage (st : Storage) (url : String) (p : Page) : Page × Option Error :=
  match st.fault with
  | some m => (p, some (Error.other m))
  | none =>
    match st.pages.find? (fun r => r.URL == url) with
    | some r => (r, none)
    | none => (p, some Error.ErrNotFound)

/-- Modelled from the spec: `SavePage(p)` of package `storage` persists the
record keyed by its URL. -/
def Storage.SavePage (st : Storage) (p : Page) : Storage × Option Error :=
  match st.fault with
  | some m => (st, some (Error.other m))
  | none => ({ st with pages := p :: st.pages.filter (fun r => r.URL != p.URL) }, none)

/-- A buffered Go channel of tokens: the number of buffered values and the
capacity given to `make`. -/
structure Chan where
  len : Nat
  cap : Nat
  deriving DecidableEq, Repr

/-- A send on a buffered channel: succeeds when the buffer has room, and
otherwise blocks (`none`) until a receiver takes a value. -/
def Chan.send (c : Chan) : Option Chan :=
  if c.len < c.cap then some { c with len := c.len + 1 } else none

/-- A Go map from domain identity to queue, as an association list. -/
abbrev Registry := List (String × Queue)

/-- The map read `m[k]`. -/
def Registry.get : Registry → String → Option Queue
  | [], _ => none
  | (k', q) :: r, k => if k' = k then some q else Registry.get r k

/-- The map write `m[k] = q` (also the in-place mutation of the queue held
under `k`). -/
def Registry.set : Registry → String → Queue → Registry
  | [], k, q => [(k, q)]
  | (k', q') :: r, k, q => if k' = k then (k, q) :: r else (k', q') :: Registry.set r k q

/-- The struct `Scheduler`.  `notify` is kept as its capacity only: its
contents are the signals given to `Next`. -/
structure Scheduler where
  config : Config
  curDomain : Option Domain
  curUrl : String
  defaultQueue : Queue
  err : Option Error
  notifyCap : Nat
  once : Bool
  queues : Registry
  shutdown : Chan
  store : Storage
  deriving DecidableEq, Repr

/-- What the `select` of `Next` receives: a domain from `notify` or a token
from `shutdown`. -/
inductive Signal
  | ready (d : Domain)
  | shutdown
  deriving DecidableEq, Repr

/-- How a call of `Next` ends: it returns `b`; or it is suspended at its
`select` with no signal left; or it is held inside `Stop` in a send on a
full `shutdown` channel, until a receiver takes a token; or it dereferences
the nil queue of an unregistered domain. -/
inductive Outcome
  | returned (b : Bool) (s : Scheduler)
  | waiting (s : Scheduler)
  | blocked
  | panicked
  deriving DecidableEq, Repr

namespace Scheduler

/-- `func (s *Scheduler) Add(url string) (err error)`. -/
def Add (fromURL : String → String) (s : Scheduler) (url : String) :
    Scheduler × Option Error :=
  match s.queues.get (fromURL url) with
  | none => (s, some Error.ErrQueueNotFound)
  | some q =>
    ({ s with queues := s.queues.set (fromURL url) (q.Enqueue url).1 }, (q.Enqueue url).2)

/-- `func (s *Scheduler) Cur(d *domain.Domain, p *page.Page) (err error)`:
`p` is the value the caller's page holds before the call; the result is the
domain and page written through the two pointers and the error returned, or
`none` when `*s.curDomain` dereferences nil. -/
def Cur (s : Scheduler) (p : Page) : Option (Domain × Page × Option Error) :=
  match s.curDomain with
  | none => none
  | some d =>
    match s.store.GetPage s.curUrl p with
    | (p', none) => some (d, p', none)
    | (_, some Error.ErrNotFound) => some (d, Page.ofURL s.curUrl, none)
    | (p', some e) => some (d, p', some e)

/-- `func (s *Scheduler) Err() error`. -/
def Err (s : Scheduler) : Option Error := s.err

/-- `func (s *Scheduler) Once()`. -/
def Once (s : Scheduler) : Scheduler := { s with once := true }

/-- The loop of `Stop`, with `k` sends left. -/
def Stop.loop : Nat → Scheduler → Option Scheduler
  | 0, s => some s
  | k + 1, s =>
    match s.shutdown.send with
    | none => none
    | some c => Stop.loop k { s with shutdown := c }

/-- `func (s *Scheduler) Stop()`: `len(s.config.Domains) + 1` sends on
`shutdown`; `none` when one of them blocks. -/
def Stop (s : Scheduler) : Option Scheduler :=
  Stop.loop (s.config.Domains.length + 1) s

/-- `func (s *Scheduler) Update(p *page.Page) (err error)`. -/
def Update (s : Scheduler) (p : Page) : Scheduler × Option Error :=
  ({ s with store := (s.store.SavePage p).1 }, (s.store.SavePage p).2)

/-- `func (s *Scheduler) restart(d *domain.Domain)`: the errors of `Add` are
dropped. -/
def restart (fromURL : String → String) (s : Scheduler) (d : Domain) : Scheduler :=
  let s1 := d.StartPoints.foldl (fun t u => (Add fromURL t u).1) s
  if d.StartPoints.length = 0 then (Add fromURL s1 d.URL).1 else s1

/-- One pass through the body of the `for` loop of `Next` on the signal the
`select` receives. -/
inductive Pass
  | ret (b : Bool) (s : Scheduler)
  | again (s : Scheduler)
  | wait (s : Scheduler)
  | block
  | panic
  deriving DecidableEq, Repr

/-- The body of the `for` loop of `Next`.  A token can be received from
`shutdown` only when its buffer holds one; with an empty buffer the call stays
at its `select`. -/
def Next.body (fromURL : String → String) (s : Scheduler) : Signal → Pass
  | Signal.shutdown =>
    if s.shutdown.len = 0 then Pass.wait s
    else Pass.ret false { s with shutdown := { s.shutdown with len := s.shutdown.len - 1 } }
  | Signal.ready d =>
    match s.queues.get d.Domain with
    | none => Pass.panic
    | some q =>
      let s1 := { s with queues := s.queues.set d.Domain q.Dequeue.1 }
      match q.Dequeue.2.2 with
      | none => Pass.ret true { s1 with curDomain := some d, curUrl := q.Dequeue.2.1 }
      | some Error.ErrEmpty =>
        if s1.once then
          match Stop s1 with
          | some s2 => Pass.ret false s2
          | none => Pass.block
        else Pass.again (restart fromURL s1 d)
      | some e => Pass.ret false { s1 with err := some e }

/-- The `for` loop of `Next` on the signals its `select` receives. -/
def Next.loop (fromURL : String → String) : Scheduler → List Signal → Outcome
  | s, [] => Outcome.waiting s
  | s, sig :: rest =>
    match Next.body fromURL s sig with
    | Pass.ret b s1 => Outcome.returned b s1
    | Pass.again s1 => Next.loop fromURL s1 rest
    | Pass.wait s1 => Outcome.waiting s1
    | Pass.block => Outcome.blocked
    | Pass.panic => Outcome.panicked

/-- `func (s *Scheduler) Next() bool`. -/
def Next (fromURL : String → String) (s : Scheduler) (sigs : List Signal) : Outcome :=
  if s.queues.length = 0 then Outcome.returned false s else Next.loop fromURL s sigs

/-- `func (s *Scheduler) Start()`: the queue of every configured domain is
registered; the goroutine `notifier(d)` it spawns is the pacer. -/
def Start (s : Scheduler) : Scheduler :=
  s.config.Domains.foldl
    (fun t d => { t with queues := t.queues.set d.Domain (t.defaultQueue.New d.Domain) }) s

/-- `func New(q queue.Queue, store *storage.Storage) (s *Scheduler, err error)`. -/
def New (q : Queue) (store : Storage) : Scheduler × Option Error :=
  let s0 : Scheduler :=
    { config := { Domains := [] }, curDomain := none, curUrl := "", defaultQueue := q,
      err := none, notifyCap := 0, once := false, queues := [],
      shutdown := { len := 0, cap := 0 }, store := store }
  match store.GetConfig s0.config with
  | (c, some e) => ({ s0 with config := c }, some e)
  | (c, none) =>
    (Start { s0 with config := c, notifyCap := c.Domains.length,
                     shutdown := { len := 0, cap := c.Domains.length + 1 } }, none)

/-- The passes a call of `Next` makes through its loop: for each, the state
at the top of the loop and the signal its `select` receives. -/
def Next.loopPasses (fromURL : String → String) :
    Scheduler → List Signal → List (Scheduler × Signal)
  | _, [] => []
  | s, sig :: rest =>
    (s, sig) ::
      match Next.body fromURL s sig with
      | Pass.again s1 => Next.loopPasses fromURL s1 rest
      | _ => []

/-- The passes of a call of `Next`; none when it returns at once for want of
queues. -/
def Next.passes (fromURL : String → String) (s : Scheduler) (sigs : List Signal) :
    List (Scheduler × Signal) :=
  if s.queues.length = 0 then [] else Next.loopPasses fromURL s sigs

/-- In the pass from state `pre` on signal `sig` the `Dequeue` of `Next`
returned the error `e`. -/
def Next.DequeueFailedAt (pre : Scheduler) (sig : Signal) (e : Error) : Prop :=
  ∃ d q, sig = Signal.ready d ∧ pre.queues.get d.Domain = some q ∧ q.Dequeue.2.2 = some e

/-- During the call of `Next` on `sigs` a `Dequeue` returned the error `e`. -/
def Next.DequeueFailed (fromURL : String → String) (s : Scheduler) (sigs : List Signal)
    (e : Error) : Prop :=
  ∃ pre sig, (pre, sig) ∈ Next.passes fromURL s sigs ∧ Next.DequeueFailedAt pre sig e

/-- The pacer `notifier(d)` receives a token from `shutdown` and returns;
`none` when there is no token to receive. -/
def pacerExit (s : Scheduler) : Option Scheduler :=
  if s.shutdown.len = 0 then none
  else some { s with shutdown := { s.shutdown with len := s.shutdown.len - 1 } }

/-- The backend of the queue registered under `k` starts to fail with `f`, or
recovers (`none`). -/
def backend (s : Scheduler) (k : String) (f : Option String) : Scheduler :=
  match s.queues.get k with
  | none => s
  | some q => { s with queues := s.queues.set k { q with fault := f } }

end Scheduler

/-- What happens around and to a scheduler: the calls of the consumer, and
the steps of its environment.  The goroutine `notifier(d)` first runs
`restart(d)` (`pacerStart`), then sends `d` on `notify` whenever its delay
elapses (the signals `Signal.ready d` given to `next`) until it receives a
token from `shutdown` and returns (`pacerExit`); the backend of a queue may
begin or cease to fail (`backend`). -/
inductive Op
  | next (sigs : List Signal)
  | add (url : String)
  | cur (p : Page)
  | update (p : Page)
  | once
  | stop
  | pacerStart (d : Domain)
  | pacerExit
  | backend (k : String) (f : Option String)
  deriving DecidableEq, Repr

/-- One operation: the state after it and, for `Next`, the value returned;
`none` when the operation does not complete (it is suspended or panics). -/
def step (fromURL : String → String) (s : Scheduler) : Op → Option (Scheduler × Option Bool)
  | Op.next sigs =>
    match Scheduler.Next fromURL s sigs with
    | Outcome.returned b s1 => some (s1, some b)
    | _ => none
  | Op.add url => some ((Scheduler.Add fromURL s url).1, none)
  | Op.cur p =>
    match Scheduler.Cur s p with
    | some _ => some (s, none)
    | none => none
  | Op.update p => some ((Scheduler.Update s p).1, none)
  | Op.once => some (Scheduler.Once s, none)
  | Op.stop =>
    match Scheduler.Stop s with
    | some s1 => some (s1, none)
    | none => none
  | Op.pacerStart d => some (Scheduler.restart fromURL s d, none)
  | Op.pacerExit =>
    match Scheduler.pacerExit s with
    | some s1 => some (s1, none)
    | none => none
  | Op.backend k f => some (Scheduler.backend s k f, none)

/-- A sequence of operations from state `s`, with the values `Next` has
returned so far in `log`, the most recent first. -/
def run (fromURL : String → String) : Scheduler → List Bool → List Op →
    Option (Scheduler × List Bool)
  | s, log, [] => some (s, log)
  | s, log, op :: ops =>
    match step fromURL s op with
    | none => none
    | some (s1, none) => run fromURL s1 log ops
    | some (s1, some b) => run fromURL s1 (b :: log) ops

/-- Modelled from the spec: `domain.FromURL` of package `domain` derives the
identity from the host component of the URL.  This one reads the characters
between `://` and the next `/`; the theorems hold for every `fromURL`, and
this one serves the concrete runs. -/
def hostChars : List Char → List Char
  | ':' :: '/' :: '/' :: rest => rest.takeWhile (fun c => c != '/')
  | _ :: rest => hostChars rest
  | [] => []

/-- The identity of a URL, see `hostChars`. -/
def hostOf (url : String) : String := String.mk (hostChars url.data)

/-- The domain of the spec's end-to-end scenario. -/
def exampleCom : Domain :=
  { Name := "example.com", URL := "https://example.com/",
    StartPoints := ["https://example.com/"], Delay := 10 }

/-- A page store holding the configuration of the scenario and no page. -/
def exampleStore : Storage :=
  { config := { Domains := [exampleCom] }, pages := [], fault := none }

/-- A working queue backend. -/
def memQueue : Queue := { items := [], fault := none }

/-- The scheduler of the scenario as `New` returns it. -/
def exampleNew : Scheduler := (Scheduler.New memQueue exampleStore).1

/-- A domain whose only seed URL lies on another host. -/
def strayCom : Domain :=
  { Name := "example.com", URL := "https://example.com/",
    StartPoints := ["https://example.org/start"], Delay := 10 }

/-- The scheduler `New` returns for the single domain `strayCom`. -/
def strayNew : Scheduler :=
  (Scheduler.New memQueue { config := { Domains := [strayCom] }, pages := [], fault := none }).1

/-- The queue `q` after the URLs `us` were appended to it in order. -/
def Queue.push (q : Queue) (us : List String) : Queue :=
  { q with items := q.items ++ us }

/-- The queue `q` after `Enqueue` was called on it with each of `us` in order,
the errors dropped. -/
def Queue.enqueueAll (q : Queue) (us : List String) : Queue :=
  us.foldl (fun t u => (t.Enqueue u).1) q

/-- What the spec says a reseed of `d` enqueues: every seed URL configured for
the domain, in order, or the base URL of the domain when it has none. -/
def Domain.reseedURLs (d : Spider.Domain) : List String :=
  if d.StartPoints = [] then [d.URL] else d.StartPoints

/-- The operations that lead the scheduler of the scenario, in run-once mode,
to a second Stop: the pacer reseeds, the seed is yielded, Stop is called, the
pacer takes its token and exits. -/
def onceStopOps : List Op :=
  [Op.pacerStart exampleCom, Op.once, Op.next [Signal.ready exampleCom], Op.stop, Op.pacerExit]

/-- The scenario in which the backend of the queue fails once and recovers:
the pacer reseeds, the backend fails, Next is called, the backend recovers,
Next is called again. -/
def transientFaultOps : List Op :=
  [Op.pacerStart exampleCom, Op.backend "example.com" (some "io"),
   Op.next [Signal.ready exampleCom], Op.backend "example.com" none,
   Op.next [Signal.ready exampleCom]]

/-- The scenario in which a URL is yielded and the scheduler is then stopped:
the pacer reseeds, Next yields the seed, Stop is called, Next receives the
shutdown token. -/
def yieldThenStopOps : List Op :=
  [Op.pacerStart exampleCom, Op.next [Signal.ready exampleCom], Op.stop,
   Op.next [Signal.shutdown]]

/-- The reseeded scheduler of the scenario with a failing queue backend. -/
def faultyCom : Scheduler :=
  Scheduler.backend (Scheduler.restart hostOf exampleNew exampleCom) "example.com" (some "io")

/-- The scheduler `faultyCom` after a call of `Next` has recorded the failure
of its backend as the terminal error. -/
def erroredCom : Scheduler := { faultyCom with err := some (Error.other "io") }

/-- A page record of the seed of the scenario, marked as fetched. -/
def fetchedPage : Page := { URL := "https://example.com/", Rest := [("fetched", "true")] }

/-- The scheduler of the scenario after its seed was yielded. -/
def yieldedCom : Scheduler :=
  { exampleNew with curDomain := some exampleCom, curUrl := "https://example.com/" }

/-- The scheduler of the scenario as `New` returns it, with a failing queue
backend. -/
def faultyNew : Scheduler := Scheduler.backend exampleNew "example.com" (some "io")

end Spider

namespace Spider

theorem Registry.get_set_self (r : Registry) (k : String) (q : Queue) :
    (r.set k q).get k = some q := by
  induction r with
  | nil => simp [Registry.set, Registry.get]
  | cons a r ih =>
    obtain ⟨k', q'⟩ := a
    by_cases h : k' = k
    · simp [Registry.set, Registry.get, h]
    · simp [Registry.set, Registry.get, h, ih]

theorem Registry.get_set_ne (r : Registry) (k k' : String) (q : Queue) (h : k' ≠ k) :
    (r.set k q).get k' = r.get k' := by
  induction r with
  | nil => simp [Registry.set, Registry.get, Ne.symm h]
  | cons a r ih =>
    obtain ⟨k0, q0⟩ := a
    by_cases h0 : k0 = k
    · subst h0
      simp [Registry.set, Registry.get, Ne.symm h]
    · simp [Registry.set, Registry.get, h0, ih]

theorem Registry.set_get_id (r : Registry) (k : String) (q : Queue)
    (h : r.get k = some q) : r.set k q = r := by
  induction r with
  | nil => simp [Registry.get] at h
  | cons a r ih =>
    obtain ⟨k0, q0⟩ := a
    by_cases h0 : k0 = k
    · subst h0
      simp [Registry.get] at h
      simp [Registry.set, h]
    · simp [Registry.get, h0] at h
      simp [Registry.set, h0, ih h]

theorem Registry.length_set (r : Registry) (k : String) (q q0 : Queue)
    (h : r.get k = some q0) : (r.set k q).length = r.length := by
  induction r with
  | nil => simp [Registry.get] at h
  | cons a r ih =>
    obtain ⟨k0, q1⟩ := a
    by_cases h0 : k0 = k
    · simp [Registry.set, h0]
    · simp [Registry.get, h0] at h
      simp [Registry.set, h0, ih h]

theorem Registry.keys_set (r : Registry) (k : String) (q q0 : Queue)
    (h : r.get k = some q0) : (r.set k q).map Prod.fst = r.map Prod.fst := by
  induction r with
  | nil => simp [Registry.get] at h
  | cons a r ih =>
    obtain ⟨k0, q1⟩ := a
    by_cases h0 : k0 = k
    · simp [Registry.set, h0]
    · simp [Registry.get, h0] at h
      simp [Registry.set, h0, ih h]

theorem Registry.length_ne_zero_of_get (r : Registry) (k : String) (q : Queue)
    (h : r.get k = some q) : r.length ≠ 0 := by
  cases r with
  | nil => simp [Registry.get] at h
  | cons a r => simp

end Spider

namespace Spider

namespace Scheduler

theorem Add_get (fromURL : String → String) (s : Scheduler) (u k : String) :
    (Add fromURL s u).1.queues.get k =
      (s.queues.get k).map (fun q => if fromURL u = k then (q.Enqueue u).1 else q) := by
  unfold Add
  cases hq : s.queues.get (fromURL u) with
  | none =>
    by_cases hk : fromURL u = k
    · subst hk; simp [hq]
    · cases s.queues.get k <;> simp [hk]
  | some q =>
    by_cases hk : fromURL u = k
    · subst hk
      simp [hq, Registry.get_set_self]
    · have hk' : k ≠ fromURL u := fun h => hk h.symm
      simp only [Registry.get_set_ne _ _ _ _ hk']
      cases s.queues.get k <;> simp [hk]

theorem Add_frame (fromURL : String → String) (s : Scheduler) (u : String) :
    (Add fromURL s u).1 = { s with queues := (Add fromURL s u).1.queues } := by
  unfold Add
  cases s.queues.get (fromURL u) <;> rfl

theorem foldl_Add_frame (fromURL : String → String) (us : List String) (s : Scheduler) :
    us.foldl (fun t u => (Add fromURL t u).1) s =
      { s with queues := (us.foldl (fun t u => (Add fromURL t u).1) s).queues } := by
  induction us generalizing s with
  | nil => rfl
  | cons u us ih =>
    simp only [List.foldl_cons]
    rw [ih]
    rw [Add_frame]

theorem foldl_Add_get (fromURL : String → String) (us : List String) (s : Scheduler)
    (k : String) :
    (us.foldl (fun t u => (Add fromURL t u).1) s).queues.get k =
      (s.queues.get k).map (fun q => q.enqueueAll (us.filter (fun u => fromURL u = k))) := by
  induction us generalizing s with
  | nil =>
    simp only [List.foldl_nil]
    cases s.queues.get k <;> simp [Queue.enqueueAll]
  | cons u us ih =>
    simp only [List.foldl_cons]
    rw [ih, Add_get]
    cases s.queues.get k with
    | none => rfl
    | some q =>
      by_cases hk : fromURL u = k <;> simp [hk, Queue.enqueueAll]

theorem restart_frame (fromURL : String → String) (s : Scheduler) (d : Domain) :
    restart fromURL s d = { s with queues := (restart fromURL s d).queues } := by
  unfold restart
  simp only
  split
  · rw [Add_frame, foldl_Add_frame]
  · rw [foldl_Add_frame]

theorem restart_get (fromURL : String → String) (s : Scheduler) (d : Domain) (k : String) :
    (restart fromURL s d).queues.get k =
      (s.queues.get k).map
        (fun q => q.enqueueAll (d.reseedURLs.filter (fun u => fromURL u = k))) := by
  unfold restart Domain.reseedURLs
  simp only
  by_cases h : d.StartPoints = []
  · simp only [h, List.length_nil, if_true, List.foldl_nil]
    rw [Add_get]
    cases s.queues.get k with
    | none => rfl
    | some q => by_cases hk : fromURL d.URL = k <;> simp [hk, Queue.enqueueAll]
  · have h' : ¬ d.StartPoints.length = 0 := by
      intro h0; exact h (List.length_eq_zero.mp h0)
    simp only [h, h', if_false]
    exact foldl_Add_get fromURL _ s k

theorem enqueueAll_healthy (q : Queue) (us : List String) (hf : q.fault = none) :
    q.enqueueAll us = q.push us := by
  unfold Queue.enqueueAll Queue.push
  induction us generalizing q with
  | nil => simp
  | cons u us ih =>
    simp only [List.foldl_cons]
    have h1 : (q.Enqueue u).1 = { q with items := q.items ++ [u] } := by
      simp [Queue.Enqueue, hf]
    rw [h1, ih { q with items := q.items ++ [u] } hf]
    simp

end Scheduler

end Spider

namespace Spider

theorem Queue.Dequeue_fault (q : Queue) (m : String) (hf : q.fault = some m) :
    q.Dequeue = (q, "", some (Error.other m)) := by
  simp [Queue.Dequeue, hf]

theorem Queue.Dequeue_empty (q : Queue) (hf : q.fault = none) (hi : q.items = []) :
    q.Dequeue = (q, "", some Error.ErrEmpty) := by
  simp [Queue.Dequeue, hf, hi]

theorem Queue.Dequeue_cons (q : Queue) (u : String) (tl : List String)
    (hf : q.fault = none) (hi : q.items = u :: tl) :
    q.Dequeue = ({ q with items := tl }, u, none) := by
  simp [Queue.Dequeue, hf, hi]

namespace Scheduler

theorem body_ready_none (fromURL : String → String) (s : Scheduler) (d : Domain)
    (hq : s.queues.get d.Domain = none) :
    Next.body fromURL s (Signal.ready d) = Pass.panic := by
  simp [Next.body, hq]

theorem body_ready_cons (fromURL : String → String) (s : Scheduler) (d : Domain)
    (q : Queue) (u : String) (tl : List String)
    (hq : s.queues.get d.Domain = some q) (hf : q.fault = none) (hi : q.items = u :: tl) :
    Next.body fromURL s (Signal.ready d) =
      Pass.ret true { s with curDomain := some d, curUrl := u,
                             queues := s.queues.set d.Domain { q with items := tl } } := by
  simp [Next.body, hq, Queue.Dequeue_cons q u tl hf hi]

theorem body_ready_fault (fromURL : String → String) (s : Scheduler) (d : Domain)
    (q : Queue) (m : String)
    (hq : s.queues.get d.Domain = some q) (hf : q.fault = some m) :
    Next.body fromURL s (Signal.ready d) =
      Pass.ret false { s with err := some (Error.other m) } := by
  simp [Next.body, hq, Queue.Dequeue_fault q m hf, Registry.set_get_id _ _ _ hq]

theorem body_ready_empty (fromURL : String → String) (s : Scheduler) (d : Domain)
    (q : Queue)
    (hq : s.queues.get d.Domain = some q) (hf : q.fault = none) (hi : q.items = []) :
    Next.body fromURL s (Signal.ready d) =
      if s.once then
        match Stop s with
        | some s2 => Pass.ret false s2
        | none => Pass.block
      else Pass.again (restart fromURL s d) := by
  simp [Next.body, hq, Queue.Dequeue_empty q hf hi, Registry.set_get_id _ _ _ hq]

end Scheduler

end Spider

namespace Spider

namespace Scheduler

theorem Stop.loop_of_room (k : Nat) (s : Scheduler)
    (h : s.shutdown.len + k ≤ s.shutdown.cap) :
    Stop.loop k s =
      some { s with shutdown := { s.shutdown with len := s.shutdown.len + k } } := by
  induction k generalizing s with
  | zero => rfl
  | succ k ih =>
    have hlt : s.shutdown.len < s.shutdown.cap := by omega
    simp only [Stop.loop, Chan.send, hlt, if_true]
    rw [ih]
    · simp only [Nat.add_assoc, Nat.add_comm 1 k]
    · simp only; omega

theorem Stop.loop_of_no_room (k : Nat) (s : Scheduler) (hk : 0 < k)
    (h : s.shutdown.cap < s.shutdown.len + k) :
    Stop.loop k s = none := by
  induction k generalizing s with
  | zero => omega
  | succ k ih =>
    by_cases hlt : s.shutdown.len < s.shutdown.cap
    · simp only [Stop.loop, Chan.send, hlt, if_true]
      apply ih
      · omega
      · simp only; omega
    · simp [Stop.loop, Chan.send, hlt]

theorem Stop_eq_some (s s1 : Scheduler) (h : Stop s = some s1) :
    s1 = { s with shutdown :=
            { s.shutdown with len := s.shutdown.len + (s.config.Domains.length + 1) } } ∧
      s.shutdown.len + (s.config.Domains.length + 1) ≤ s.shutdown.cap := by
  by_cases hr : s.shutdown.len + (s.config.Domains.length + 1) ≤ s.shutdown.cap
  · have := Stop.loop_of_room _ s hr
    unfold Stop at h
    rw [this] at h
    exact ⟨(Option.some.inj h).symm, hr⟩
  · have := Stop.loop_of_no_room (s.config.Domains.length + 1) s (by omega) (by omega)
    unfold Stop at h
    rw [this] at h
    cases h

end Scheduler

end Spider

namespace Spider

namespace Scheduler

theorem body_ret_true (fromURL : String → String) (s s1 : Scheduler) (sig : Signal)
    (h : Next.body fromURL s sig = Pass.ret true s1) :
    ∃ d q tl, sig = Signal.ready d ∧ s.queues.get d.Domain = some q ∧ q.fault = none ∧
      q.items = s1.curUrl :: tl ∧
      s1 = { s with curDomain := some d, curUrl := s1.curUrl,
                    queues := s.queues.set d.Domain { q with items := tl } } := by
  cases sig with
  | shutdown =>
    simp only [Next.body] at h
    split at h <;> simp at h
  | ready d =>
    cases hq : s.queues.get d.Domain with
    | none => rw [body_ready_none fromURL s d hq] at h; cases h
    | some q =>
      cases hf : q.fault with
      | some m => rw [body_ready_fault fromURL s d q m hq hf] at h; simp at h
      | none =>
        cases hi : q.items with
        | nil =>
          rw [body_ready_empty fromURL s d q hq hf hi] at h
          split at h
          · rename_i honce
            cases hs : Stop s with
            | none => simp [hs] at h
            | some s2 => simp [hs] at h
          · cases h
        | cons u tl =>
          rw [body_ready_cons fromURL s d q u tl hq hf hi] at h
          simp only [Pass.ret.injEq, true_and] at h
          subst h
          exact ⟨d, q, tl, rfl, hq, hf, hi, rfl⟩

theorem loop_returned_true (fromURL : String → String) (sigs : List Signal)
    (s s1 : Scheduler) (h : Next.loop fromURL s sigs = Outcome.returned true s1) :
    ∃ pre d q tl, (pre, Signal.ready d) ∈ Next.loopPasses fromURL s sigs ∧
      pre.queues.get d.Domain = some q ∧ q.items = s1.curUrl :: tl ∧
      s1.curDomain = some d ∧ s1.queues.get d.Domain = some { q with items := tl } := by
  induction sigs generalizing s with
  | nil => simp [Next.loop] at h
  | cons sig rest ih =>
    simp only [Next.loop] at h
    cases hb : Next.body fromURL s sig with
    | ret b s2 =>
      simp only [hb, Outcome.returned.injEq] at h
      obtain ⟨hb1, hs⟩ := h
      subst hb1; subst hs
      obtain ⟨d, q, tl, hsig, hq, _, hi, hs2⟩ := body_ret_true fromURL s s2 sig hb
      refine ⟨s, d, q, tl, ?_, hq, hi, ?_, ?_⟩
      · simp [Next.loopPasses, hsig]
      · rw [hs2]
      · rw [hs2]; exact Registry.get_set_self _ _ _
    | again s2 =>
      simp only [hb] at h
      obtain ⟨pre, d, q, tl, hmem, hrest⟩ := ih s2 h
      refine ⟨pre, d, q, tl, ?_, hrest⟩
      simp [Next.loopPasses, hb, hmem]
    | wait s2 => simp [hb] at h
    | block => simp [hb] at h
    | panic => simp [hb] at h

/-- C1: when Next receives a readiness signal for a domain d whose registered
queue is non-empty with head u and whose Dequeue does not fail, it returns
true with the cursor set to (d, u), u removed from the head of that queue, and
every other queue and the terminal error unchanged; and whenever a call of
Next returns true, the URL it yields was, in the state at the top of its last
pass, the head of the queue of the yielded domain. -/
theorem Next_yields_head (fromURL : String → String) :
    (∀ (s : Scheduler) (d : Domain) (q : Queue) (u : String) (tl : List String)
        (rest : List Signal),
        s.queues.get d.Domain = some q → q.fault = none → q.items = u :: tl →
        s.queues.length ≠ 0 ∧
        Next fromURL s (Signal.ready d :: rest) =
          Outcome.returned true
            { s with curDomain := some d, curUrl := u,
                     queues := s.queues.set d.Domain { q with items := tl } } ∧
        (s.queues.set d.Domain { q with items := tl }).get d.Domain =
          some { q with items := tl } ∧
        (∀ k, k ≠ d.Domain →
          (s.queues.set d.Domain { q with items := tl }).get k = s.queues.get k)) ∧
    (∀ (s s1 : Scheduler) (sigs : List Signal),
        Next fromURL s sigs = Outcome.returned true s1 →
        ∃ pre d q tl, (pre, Signal.ready d) ∈ Next.passes fromURL s sigs ∧
          pre.queues.get d.Domain = some q ∧ q.items = s1.curUrl :: tl ∧
          s1.curDomain = some d ∧
          s1.queues.get d.Domain = some { q with items := tl }) := by
  constructor
  · intro s d q u tl rest hq hf hi
    have hlen := Registry.length_ne_zero_of_get _ _ _ hq
    refine ⟨hlen, ?_, Registry.get_set_self _ _ _, ?_⟩
    · simp only [Next, hlen, if_false, Next.loop, body_ready_cons fromURL s d q u tl hq hf hi]
    · intro k hk
      exact Registry.get_set_ne _ _ _ _ hk
  · intro s s1 sigs h
    unfold Next at h
    unfold Next.passes
    by_cases hlen : s.queues.length = 0
    · simp [hlen] at h
    · simp only [hlen, if_false] at h ⊢
      exact loop_returned_true fromURL sigs s s1 h

/-- C2: Add on a URL whose identity has no registered queue returns
ErrQueueNotFound and leaves the scheduler, so every queue, as it was; on a URL
whose identity has a registered queue it calls Enqueue on that queue alone and
returns its result: the URL is at the tail of that queue when Enqueue returns
no error, and every other queue and the set of registered identities are
unchanged in either case. -/
theorem Add_routes_by_identity (fromURL : String → String) (s : Scheduler) (url : String) :
    (s.queues.get (fromURL url) = none →
      Add fromURL s url = (s, some Error.ErrQueueNotFound)) ∧
    (∀ q, s.queues.get (fromURL url) = some q →
      (Add fromURL s url).2 = (q.Enqueue url).2 ∧
      (Add fromURL s url).1.queues.get (fromURL url) = some (q.Enqueue url).1 ∧
      ((q.Enqueue url).2 = none → (q.Enqueue url).1.items = q.items ++ [url]) ∧
      (∀ k, k ≠ fromURL url → (Add fromURL s url).1.queues.get k = s.queues.get k) ∧
      (Add fromURL s url).1.queues.map Prod.fst = s.queues.map Prod.fst) := by
  constructor
  · intro h
    simp [Add, h]
  · intro q h
    refine ⟨?_, ?_, ?_, ?_, ?_⟩
    · simp [Add, h]
    · simp [Add, h, Registry.get_set_self]
    · intro hok
      unfold Queue.Enqueue at hok ⊢
      cases hf : q.fault with
      | some m => simp [hf] at hok
      | none => rfl
    · intro k hk
      simp [Add, h, Registry.get_set_ne _ _ _ _ hk]
    · simp only [Add, h]
      exact Registry.keys_set _ _ _ _ h

end Scheduler

theorem Next_yields_head_witness :
    Scheduler.Next hostOf (Scheduler.restart hostOf exampleNew exampleCom)
        [Signal.ready exampleCom] =
      Outcome.returned true
        { exampleNew with curDomain := some exampleCom, curUrl := "https://example.com/" } ∧
    ∃ pre d q tl, (pre, Signal.ready d) ∈
        Scheduler.Next.passes hostOf (Scheduler.restart hostOf exampleNew exampleCom)
          [Signal.ready exampleCom] ∧
      pre.queues.get d.Domain = some q ∧ q.items = "https://example.com/" :: tl := by
  have h := ((Scheduler.Next_yields_head hostOf).1
    (Scheduler.restart hostOf exampleNew exampleCom) exampleCom
    { items := ["https://example.com/"], fault := none } "https://example.com/" [] []
    (by decide) rfl rfl).2.1
  have h2 := (Scheduler.Next_yields_head hostOf).2 _ _ _ h
  refine ⟨by rw [h]; decide, ?_⟩
  obtain ⟨pre, d, q, tl, hm, hq, hi, _⟩ := h2
  exact ⟨pre, d, q, tl, hm, hq, hi⟩

theorem Add_routes_by_identity_witness :
    Scheduler.Add hostOf exampleNew "https://example.org/a" =
      (exampleNew, some Error.ErrQueueNotFound) ∧
    (Scheduler.Add hostOf exampleNew "https://example.com/a").1.queues.get "example.com" =
      some { items := ["https://example.com/a"], fault := none } ∧
    (memQueue.Enqueue "https://example.com/a").1.items = [] ++ ["https://example.com/a"] :=
  ⟨(Scheduler.Add_routes_by_identity hostOf exampleNew "https://example.org/a").1 (by decide),
   ((Scheduler.Add_routes_by_identity hostOf exampleNew "https://example.com/a").2
      memQueue (by decide)).2.1,
   ((Scheduler.Add_routes_by_identity hostOf exampleNew "https://example.com/a").2
      memQueue (by decide)).2.2.1 (by decide)⟩

/-- C1 as stated fails: the queue of the domain is non-empty with the seed at
its head and its backend fails; Next receives a readiness signal for the
domain, Dequeue returns the error of the backend, and Next returns false with
that error as the terminal error, the cursor unset and the queue as it
was. -/
theorem Next_head_dequeue_fails :
    faultyCom.queues.get exampleCom.Domain =
      some { items := ["https://example.com/"], fault := some "io" } ∧
    Scheduler.Next hostOf faultyCom [Signal.ready exampleCom] =
      Outcome.returned false { faultyCom with err := some (Error.other "io") } := by
  decide

/-- C2 as stated fails: a queue is registered for the identity of the URL and
its backend fails; Add returns the error of Enqueue and the URL is not at the
tail of the queue, which is as it was. -/
theorem Add_enqueue_fails :
    faultyCom.queues.get (hostOf "https://example.com/a") =
      some { items := ["https://example.com/"], fault := some "io" } ∧
    Scheduler.Add hostOf faultyCom "https://example.com/a" =
      (faultyCom, some (Error.other "io")) := by
  decide

end Spider

namespace Spider

namespace Scheduler

/-- C3: in run-once mode, when Next receives a readiness signal for a domain
whose queue is empty and the shutdown channel has room for one token per
configured domain and one more, Next returns false without reseeding: the
queues and the terminal error are as before and the channel holds that many
more tokens. -/
theorem Next_once_exhausted (fromURL : String → String) (s : Scheduler) (d : Domain)
    (q : Queue) (rest : List Signal)
    (honce : s.once = true) (hq : s.queues.get d.Domain = some q)
    (hf : q.fault = none) (hi : q.items = [])
    (hroom : s.shutdown.len + (s.config.Domains.length + 1) ≤ s.shutdown.cap) :
    Next fromURL s (Signal.ready d :: rest) =
      Outcome.returned false
        { s with shutdown :=
            { s.shutdown with len := s.shutdown.len + (s.config.Domains.length + 1) } } := by
  have hlen := Registry.length_ne_zero_of_get _ _ _ hq
  simp only [Next, hlen, if_false, Next.loop, body_ready_empty fromURL s d q hq hf hi,
    honce, if_true, Stop, Stop.loop_of_room _ s hroom]

/-- C5: when Stop has been called and the select of the following call of
Next receives the shutdown token, Next returns false, and the terminal error,
the cursor and every queue are what they were before Stop. -/
theorem Next_after_Stop (fromURL : String → String) (s s1 : Scheduler)
    (rest : List Signal) (hstop : Stop s = some s1) :
    ∃ s2, Next fromURL s1 (Signal.shutdown :: rest) = Outcome.returned false s2 ∧
      s2.err = s.err ∧ s2.curDomain = s.curDomain ∧ s2.curUrl = s.curUrl ∧
      s2.queues = s.queues := by
  obtain ⟨hs1, _⟩ := Stop_eq_some s s1 hstop
  by_cases hlen : s1.queues.length = 0
  · refine ⟨s1, ?_, ?_⟩
    · simp only [Next, hlen, if_true]
    · subst hs1
      exact ⟨rfl, rfl, rfl, rfl⟩
  · have hpos : ¬ s1.shutdown.len = 0 := by
      rw [hs1]
      simp only
      omega
    refine ⟨{ s1 with shutdown := { s1.shutdown with len := s1.shutdown.len - 1 } }, ?_, ?_⟩
    · simp only [Next, hlen, if_false, Next.loop, Next.body, hpos]
    · subst hs1
      exact ⟨rfl, rfl, rfl, rfl⟩

end Scheduler

theorem Next_once_exhausted_witness :
    Scheduler.Next hostOf (Scheduler.Once exampleNew) [Signal.ready exampleCom] =
      Outcome.returned false
        { Scheduler.Once exampleNew with shutdown := { len := 2, cap := 2 } } :=
  Scheduler.Next_once_exhausted hostOf (Scheduler.Once exampleNew) exampleCom memQueue []
    rfl (by decide) rfl rfl (by decide)

/-- C3 as stated fails: after Once, a yield, Stop and the exit of the only
pacer, the shutdown channel of capacity 2 holds one token and no pacer is left
to receive; Next then receives the readiness signal the pacer had sent, finds
the queue of the domain empty, and is held in the second send of Stop instead
of returning false. -/
theorem Next_once_exhausted_blocks :
    (run hostOf exampleNew [] onceStopOps).map
        (fun r => (r.1.once, r.1.queues.get exampleCom.Domain, r.1.shutdown,
          Scheduler.Next hostOf r.1 [Signal.ready exampleCom])) =
      some (true, some memQueue, { len := 1, cap := 2 }, Outcome.blocked) := by
  decide

theorem Next_after_Stop_witness :
    ∃ s2, Scheduler.Next hostOf
        { exampleNew with shutdown := { len := 2, cap := 2 } } [Signal.shutdown] =
        Outcome.returned false s2 ∧
      s2.err = exampleNew.err ∧ s2.curDomain = exampleNew.curDomain ∧
      s2.curUrl = exampleNew.curUrl ∧ s2.queues = exampleNew.queues :=
  Scheduler.Next_after_Stop hostOf exampleNew
    { exampleNew with shutdown := { len := 2, cap := 2 } } [] (by decide)

/-- C5 as stated fails: the pacer has reseeded and its readiness signal is
pending when Stop is called; the select of the following Next receives that
signal and Next returns true, with the cursor set and the seed dequeued. -/
theorem Next_after_Stop_yields :
    (run hostOf exampleNew [] [Op.pacerStart exampleCom, Op.stop]).map
        (fun r => Scheduler.Next hostOf r.1 [Signal.ready exampleCom]) =
      some (Outcome.returned true
        { exampleNew with curDomain := some exampleCom, curUrl := "https://example.com/",
                          shutdown := { len := 2, cap := 2 } }) := by
  decide

end Spider

namespace Spider

namespace Scheduler

theorem reseedURLs_ne_nil (d : Domain) : d.reseedURLs ≠ [] := by
  unfold Domain.reseedURLs
  split
  · simp
  · assumption

theorem filter_of_route (fromURL : String → String) (us : List String) (k : String)
    (h : ∀ u ∈ us, fromURL u = k) :
    us.filter (fun u => fromURL u = k) = us := by
  apply List.filter_eq_self.mpr
  intro u hu
  simp [h u hu]

theorem restart_get_own (fromURL : String → String) (s : Scheduler) (d : Domain)
    (q : Queue) (hq : s.queues.get d.Domain = some q) (hf : q.fault = none)
    (hroute : ∀ u ∈ d.reseedURLs, fromURL u = d.Domain) :
    (restart fromURL s d).queues.get d.Domain = some (q.push d.reseedURLs) := by
  rw [restart_get, hq, filter_of_route fromURL _ _ hroute]
  simp only [Option.map_some']
  rw [enqueueAll_healthy q _ hf]

/-- C8: for a domain D whose queue is registered and whose Enqueue does not
fail, when every URL a reseed enqueues (the seed URLs, or the base URL for
want of seeds) has the identity of D under FromURL, restart appends these URLs
in order to the queue of D, which is then non-empty; from an empty queue it
holds exactly them. -/
theorem restart_fills_own_queue (fromURL : String → String) (s : Scheduler) (d : Domain)
    (q : Queue) (hq : s.queues.get d.Domain = some q) (hf : q.fault = none)
    (hroute : ∀ u ∈ d.reseedURLs, fromURL u = d.Domain) :
    (restart fromURL s d).queues.get d.Domain = some (q.push d.reseedURLs) ∧
    (q.push d.reseedURLs).items ≠ [] ∧
    (q.items = [] → (q.push d.reseedURLs).items = d.reseedURLs) := by
  refine ⟨?_, ?_, ?_⟩
  · exact restart_get_own fromURL s d q hq hf hroute
  · have := reseedURLs_ne_nil d
    simp [Queue.push, this]
  · intro hi
    simp [Queue.push, hi]

theorem restart_length_ne_zero (fromURL : String → String) (s : Scheduler) (d : Domain)
    (q : Queue) (hq : s.queues.get d.Domain = some q) :
    (restart fromURL s d).queues.length ≠ 0 := by
  apply Registry.length_ne_zero_of_get _ d.Domain
    (q.enqueueAll (d.reseedURLs.filter (fun u => fromURL u = d.Domain)))
  rw [restart_get, hq]
  rfl

/-- C4: outside run-once mode, when Next receives a readiness signal for a
domain d whose queue is empty, it does not return on that signal and leaves
the terminal error alone: it runs restart for d and goes on from the reseeded
state with the signals that follow, waiting when there is none.  When the URLs
a reseed of d enqueues have the identity of d, the queue of d then holds them
in order and the next readiness signal for d yields the first of them.  In the
scenario of the spec, with FromURL giving example.com for the seed, the second
successful Next yields the seed again. -/
theorem Next_reseeds_when_empty (fromURL : String → String) :
    (∀ (s : Scheduler) (d : Domain) (q : Queue) (rest : List Signal),
      s.once = false → s.queues.get d.Domain = some q → q.fault = none → q.items = [] →
      Next fromURL s (Signal.ready d :: rest) = Next fromURL (restart fromURL s d) rest ∧
      Next fromURL s [Signal.ready d] = Outcome.waiting (restart fromURL s d) ∧
      (restart fromURL s d).err = s.err ∧
      ((∀ u ∈ d.reseedURLs, fromURL u = d.Domain) →
        (restart fromURL s d).queues.get d.Domain = some (q.push d.reseedURLs) ∧
        ∃ u tl, d.reseedURLs = u :: tl ∧
          Next fromURL s (Signal.ready d :: Signal.ready d :: rest) =
            Outcome.returned true
              { restart fromURL s d with
                  curDomain := some d, curUrl := u,
                  queues := (restart fromURL s d).queues.set d.Domain (q.push tl) })) ∧
    (fromURL "https://example.com/" = "example.com" →
      ∀ p0 p : Page,
        run fromURL exampleNew []
          [Op.pacerStart exampleCom, Op.next [Signal.ready exampleCom], Op.cur p0,
           Op.update p, Op.next [Signal.ready exampleCom, Signal.ready exampleCom]] =
        some ({ exampleNew with
                  curDomain := some exampleCom, curUrl := "https://example.com/",
                  store := (exampleStore.SavePage p).1 }, [true, true])) := by
  constructor
  · intro s d q rest honce hq hf hi
    have hlen := Registry.length_ne_zero_of_get _ _ _ hq
    have hlen2 := restart_length_ne_zero fromURL s d q hq
    have hstep : ∀ rest, Next fromURL s (Signal.ready d :: rest) =
        Next fromURL (restart fromURL s d) rest := by
      intro rest
      simp only [Next, hlen, hlen2, if_false, Next.loop,
        body_ready_empty fromURL s d q hq hf hi, honce, Bool.false_eq_true]
    refine ⟨hstep rest, ?_, ?_, ?_⟩
    · rw [hstep]
      simp only [Next, hlen2, if_false, Next.loop]
    · rw [restart_frame]
    · intro hroute
      have hget := restart_get_own fromURL s d q hq hf hroute
      refine ⟨hget, ?_⟩
      cases hr : d.reseedURLs with
      | nil => exact absurd hr (reseedURLs_ne_nil d)
      | cons u tl =>
        refine ⟨u, tl, rfl, ?_⟩
        rw [hstep]
        have hitems : (q.push d.reseedURLs).items = u :: tl := by
          simp [Queue.push, hi, hr]
        have hfault : (q.push d.reseedURLs).fault = none := hf
        simp only [Next, hlen2, if_false, Next.loop,
          body_ready_cons fromURL (restart fromURL s d) d (q.push d.reseedURLs) u tl
            hget hfault hitems]
        simp [Queue.push, hi]
  · intro hfrom p0 p
    simp [run, step, exampleNew, New, Start, exampleStore, memQueue, exampleCom,
      Storage.GetConfig, Queue.New, Registry.set, Registry.get, restart, Add, hfrom,
      Domain.Domain, Queue.Enqueue, Next, Next.loop, Next.body, Queue.Dequeue, Cur,
      Storage.GetPage, Update, Storage.SavePage, Page.ofURL]

end Scheduler

end Spider

namespace Spider

namespace Scheduler

theorem body_err (fromURL : String → String) (s : Scheduler) (sig : Signal)
    (h : s.err = none) :
    match Next.body fromURL s sig with
    | Pass.ret b s1 =>
      (∀ e, s1.err = some e ↔ (e ≠ Error.ErrEmpty ∧ Next.DequeueFailedAt s sig e)) ∧
        (s1.err ≠ none → b = false)
    | Pass.again s1 => s1.err = none ∧ ∀ e, Next.DequeueFailedAt s sig e → e = Error.ErrEmpty
    | Pass.wait s1 => s1.err = none ∧ ∀ e, Next.DequeueFailedAt s sig e → e = Error.ErrEmpty
    | Pass.block => ∀ e, Next.DequeueFailedAt s sig e → e = Error.ErrEmpty
    | Pass.panic => ∀ e, Next.DequeueFailedAt s sig e → e = Error.ErrEmpty := by
  cases sig with
  | shutdown =>
    have hno : ∀ e, ¬ Next.DequeueFailedAt s Signal.shutdown e := by
      rintro e ⟨d, q, hsig, _⟩
      cases hsig
    by_cases h0 : s.shutdown.len = 0
    · simp only [Next.body, h0, if_true]
      exact ⟨h, fun e he => absurd he (hno e)⟩
    · simp only [Next.body, h0, if_false]
      refine ⟨fun e => ?_, by simp⟩
      simp [h, hno e]
  | ready d =>
    cases hq : s.queues.get d.Domain with
    | none =>
      rw [body_ready_none fromURL s d hq]
      rintro e ⟨d1, q, hsig, hget, _⟩
      cases hsig
      rw [hq] at hget
      cases hget
    | some q =>
      have hat : ∀ e, Next.DequeueFailedAt s (Signal.ready d) e ↔ q.Dequeue.2.2 = some e := by
        intro e
        constructor
        · rintro ⟨d1, q1, hsig, hget, hd⟩
          cases hsig
          rw [hq] at hget
          cases hget
          exact hd
        · intro hd
          exact ⟨d, q, rfl, hq, hd⟩
      cases hf : q.fault with
      | some m =>
        rw [body_ready_fault fromURL s d q m hq hf]
        simp only [hat, Queue.Dequeue_fault q m hf]
        refine ⟨fun e => ?_, by simp⟩
        constructor
        · intro he
          cases he
          simp
        · rintro ⟨_, he⟩
          rw [he]
      | none =>
        cases hi : q.items with
        | nil =>
          rw [body_ready_empty fromURL s d q hq hf hi]
          have hE : ∀ e, Next.DequeueFailedAt s (Signal.ready d) e → e = Error.ErrEmpty := by
            intro e he
            have := (hat e).mp he
            rw [Queue.Dequeue_empty q hf hi] at this
            cases this
            rfl
          by_cases honce : s.once = true
          · simp only [honce, if_true]
            cases hs : Stop s with
            | none => exact hE
            | some s2 =>
              simp only
              obtain ⟨hs2, _⟩ := Stop_eq_some s s2 hs
              have herr : s2.err = none := by rw [hs2]; exact h
              refine ⟨fun e => ?_, by simp⟩
              constructor
              · intro he
                rw [herr] at he
                cases he
              · rintro ⟨hne, he⟩
                exact absurd (hE e he) hne
          · simp only [honce, if_false]
            refine ⟨?_, hE⟩
            rw [restart_frame]
            exact h
        | cons u tl =>
          rw [body_ready_cons fromURL s d q u tl hq hf hi]
          simp only [hat, Queue.Dequeue_cons q u tl hf hi, h]
          refine ⟨fun e => ?_, by simp⟩
          simp

end Scheduler

end Spider

namespace Spider

namespace Scheduler

theorem loop_err (fromURL : String → String) (sigs : List Signal) (s : Scheduler)
    (h : s.err = none) :
    match Next.loop fromURL s sigs with
    | Outcome.returned b s1 =>
      (∀ e, s1.err = some e ↔
        (e ≠ Error.ErrEmpty ∧
          ∃ pre sig, (pre, sig) ∈ Next.loopPasses fromURL s sigs ∧
            Next.DequeueFailedAt pre sig e)) ∧
        (s1.err ≠ none → b = false)
    | Outcome.waiting s1 =>
      s1.err = none ∧
        ∀ e, (∃ pre sig, (pre, sig) ∈ Next.loopPasses fromURL s sigs ∧
          Next.DequeueFailedAt pre sig e) → e = Error.ErrEmpty
    | _ =>
      ∀ e, (∃ pre sig, (pre, sig) ∈ Next.loopPasses fromURL s sigs ∧
        Next.DequeueFailedAt pre sig e) → e = Error.ErrEmpty := by
  induction sigs generalizing s with
  | nil =>
    simp only [Next.loop, Next.loopPasses]
    exact ⟨h, by simp⟩
  | cons sig rest ih =>
    have hb := body_err fromURL s sig h
    simp only [Next.loop, Next.loopPasses]
    cases hbody : Next.body fromURL s sig with
    | ret b s1 =>
      simp only [hbody] at hb ⊢
      refine ⟨fun e => ?_, hb.2⟩
      rw [hb.1 e]
      constructor
      · rintro ⟨hne, hat⟩
        exact ⟨hne, s, sig, List.mem_singleton.mpr rfl, hat⟩
      · rintro ⟨hne, pre, sig0, hmem, hat⟩
        simp only [List.mem_singleton, Prod.mk.injEq] at hmem
        obtain ⟨rfl, rfl⟩ := hmem
        exact ⟨hne, hat⟩
    | again s1 =>
      simp only [hbody] at hb ⊢
      have ih1 := ih s1 hb.1
      have key : ∀ e, e ≠ Error.ErrEmpty →
          ((∃ pre sig0, (pre, sig0) ∈ (s, sig) :: Next.loopPasses fromURL s1 rest ∧
              Next.DequeueFailedAt pre sig0 e) ↔
            (∃ pre sig0, (pre, sig0) ∈ Next.loopPasses fromURL s1 rest ∧
              Next.DequeueFailedAt pre sig0 e)) := by
        intro e hne
        constructor
        · rintro ⟨pre, sig0, hmem, hat⟩
          rcases List.mem_cons.mp hmem with heq | hmem
          · cases heq
            exact absurd (hb.2 e hat) hne
          · exact ⟨pre, sig0, hmem, hat⟩
        · rintro ⟨pre, sig0, hmem, hat⟩
          exact ⟨pre, sig0, List.mem_cons_of_mem _ hmem, hat⟩
      cases hl : Next.loop fromURL s1 rest with
      | returned b s2 =>
        simp only [hl] at ih1 ⊢
        refine ⟨fun e => ?_, ih1.2⟩
        rw [ih1.1 e]
        constructor
        · rintro ⟨hne, hf⟩
          exact ⟨hne, (key e hne).mpr hf⟩
        · rintro ⟨hne, hf⟩
          exact ⟨hne, (key e hne).mp hf⟩
      | waiting s2 =>
        simp only [hl] at ih1 ⊢
        refine ⟨ih1.1, fun e hf => ?_⟩
        by_contra hne
        exact hne (ih1.2 e ((key e hne).mp hf))
      | blocked =>
        simp only [hl] at ih1 ⊢
        intro e hf
        by_contra hne
        exact hne (ih1 e ((key e hne).mp hf))
      | panicked =>
        simp only [hl] at ih1 ⊢
        intro e hf
        by_contra hne
        exact hne (ih1 e ((key e hne).mp hf))
    | wait s1 =>
      simp only [hbody] at hb ⊢
      refine ⟨hb.1, ?_⟩
      rintro e ⟨pre, sig0, hmem, hat⟩
      simp only [List.mem_singleton, Prod.mk.injEq] at hmem
      obtain ⟨rfl, rfl⟩ := hmem
      exact hb.2 e hat
    | block =>
      simp only [hbody] at hb ⊢
      rintro e ⟨pre, sig0, hmem, hat⟩
      simp only [List.mem_singleton, Prod.mk.injEq] at hmem
      obtain ⟨rfl, rfl⟩ := hmem
      exact hb e hat
    | panic =>
      simp only [hbody] at hb ⊢
      rintro e ⟨pre, sig0, hmem, hat⟩
      simp only [List.mem_singleton, Prod.mk.injEq] at hmem
      obtain ⟨rfl, rfl⟩ := hmem
      exact hb e hat

/-- C6: from a state whose terminal error is nil, a call of Next that
returns leaves Err() equal to an error e exactly when e is not the empty-queue
condition and a Dequeue of that call failed with e, and then Next returned
false; a call that is still waiting has left Err() nil; and when a Dequeue of
the call fails with an error other than the empty-queue condition, the call
returns false with that error as Err().  So the empty-queue condition is never
stored as the terminal error, whatever the run-once flag. -/
theorem Next_err_iff_dequeue_failed (fromURL : String → String) (s : Scheduler)
    (sigs : List Signal) (h : s.Err = none) :
    (∀ b s1, Next fromURL s sigs = Outcome.returned b s1 →
      (∀ e, s1.Err = some e ↔
        (e ≠ Error.ErrEmpty ∧ Next.DequeueFailed fromURL s sigs e)) ∧
      (s1.Err ≠ none ↔ ∃ e, e ≠ Error.ErrEmpty ∧ Next.DequeueFailed fromURL s sigs e) ∧
      (s1.Err ≠ none → b = false) ∧
      s1.Err ≠ some Error.ErrEmpty) ∧
    (∀ s1, Next fromURL s sigs = Outcome.waiting s1 →
      s1.Err = none ∧ ∀ e, Next.DequeueFailed fromURL s sigs e → e = Error.ErrEmpty) ∧
    (∀ e, e ≠ Error.ErrEmpty → Next.DequeueFailed fromURL s sigs e →
      ∃ s1, Next fromURL s sigs = Outcome.returned false s1 ∧ s1.Err = some e) := by
  unfold Next Next.DequeueFailed Next.passes Err at *
  by_cases hlen : s.queues.length = 0
  · simp only [hlen, if_true]
    refine ⟨?_, ?_, ?_⟩
    · intro b s1 hret
      simp only [Outcome.returned.injEq] at hret
      obtain ⟨_, rfl⟩ := hret
      simp [h]
    · intro s1 hw
      cases hw
    · rintro e _ ⟨pre, sig, hmem, _⟩
      simp at hmem
  · simp only [hlen, if_false]
    have hl := loop_err fromURL sigs s h
    refine ⟨?_, ?_, ?_⟩
    · intro b s1 hret
      simp only [hret] at hl
      refine ⟨hl.1, ?_, hl.2, ?_⟩
      · constructor
        · intro hne
          cases he : s1.err with
          | none => exact absurd he hne
          | some e => exact ⟨e, (hl.1 e).mp he⟩
        · rintro ⟨e, he⟩ hnone
          have := (hl.1 e).mpr he
          rw [hnone] at this
          cases this
      · intro he
        exact ((hl.1 _).mp he).1 rfl
    · intro s1 hw
      simp only [hw] at hl
      exact hl
    · intro e hne hfail
      cases ho : Next.loop fromURL s sigs with
      | returned b s1 =>
        simp only [ho] at hl
        have herr : s1.err = some e := (hl.1 e).mpr ⟨hne, hfail⟩
        have hb : b = false := hl.2 (by rw [herr]; simp)
        subst hb
        exact ⟨s1, rfl, herr⟩
      | waiting s1 =>
        simp only [ho] at hl
        exact absurd (hl.2 e hfail) hne
      | blocked =>
        simp only [ho] at hl
        exact absurd (hl e hfail) hne
      | panicked =>
        simp only [ho] at hl
        exact absurd (hl e hfail) hne

end Scheduler

end Spider

namespace Spider

namespace Scheduler

theorem body_cases (fromURL : String → String) (s : Scheduler) (sig : Signal) :
    Next.body fromURL s sig = Pass.wait s ∨
    Next.body fromURL s sig = Pass.block ∨
    Next.body fromURL s sig = Pass.panic ∨
    (∃ d, Next.body fromURL s sig = Pass.again (restart fromURL s d)) ∨
    (∃ c, Next.body fromURL s sig = Pass.ret false { s with shutdown := c }) ∨
    (∃ e, Next.body fromURL s sig = Pass.ret false { s with err := some e }) ∨
    (∃ d u qs, Next.body fromURL s sig =
      Pass.ret true { s with curDomain := some d, curUrl := u, queues := qs }) := by
  cases sig with
  | shutdown =>
    by_cases h0 : s.shutdown.len = 0
    · left
      simp [Next.body, h0]
    · right; right; right; right; left
      exact ⟨{ s.shutdown with len := s.shutdown.len - 1 }, by simp only [Next.body, h0, if_false]⟩
  | ready d =>
    cases hq : s.queues.get d.Domain with
    | none =>
      right; right; left
      exact body_ready_none fromURL s d hq
    | some q =>
      cases hf : q.fault with
      | some m =>
        right; right; right; right; right; left
        exact ⟨_, body_ready_fault fromURL s d q m hq hf⟩
      | none =>
        cases hi : q.items with
        | nil =>
          rw [body_ready_empty fromURL s d q hq hf hi]
          by_cases honce : s.once = true
          · rw [if_pos honce]
            cases hs : Stop s with
            | none => right; left; rfl
            | some s2 =>
              right; right; right; right; left
              obtain ⟨hs2, _⟩ := Stop_eq_some s s2 hs
              exact ⟨s2.shutdown, by rw [hs2]⟩
          · rw [if_neg honce]
            right; right; right; left
            exact ⟨d, rfl⟩
        | cons u tl =>
          right; right; right; right; right; right
          exact ⟨d, u, _, body_ready_cons fromURL s d q u tl hq hf hi⟩

theorem loop_keeps (fromURL : String → String) (sigs : List Signal) (s : Scheduler) :
    (∀ b s1, Next.loop fromURL s sigs = Outcome.returned b s1 →
      (s.err ≠ none → s1.err ≠ none) ∧
      (b = true → s1.curDomain ≠ none) ∧
      (b = false → s1.curDomain = s.curDomain ∧ s1.curUrl = s.curUrl)) ∧
    (∀ s1, Next.loop fromURL s sigs = Outcome.waiting s1 →
      (s.err ≠ none → s1.err ≠ none) ∧
      s1.curDomain = s.curDomain ∧ s1.curUrl = s.curUrl) := by
  induction sigs generalizing s with
  | nil =>
    simp only [Next.loop]
    constructor
    · intro b s1 h
      cases h
    · intro s1 h
      cases h
      exact ⟨id, rfl, rfl⟩
  | cons sig rest ih =>
    simp only [Next.loop]
    rcases body_cases fromURL s sig with h | h | h | ⟨d, h⟩ | ⟨c, h⟩ | ⟨e, h⟩ | ⟨d, u, qs, h⟩
    · rw [h]
      constructor
      · intro b s1 h1
        cases h1
      · intro s1 h1
        cases h1
        exact ⟨id, rfl, rfl⟩
    · rw [h]
      exact ⟨fun b s1 h1 => (by cases h1), fun s1 h1 => (by cases h1)⟩
    · rw [h]
      exact ⟨fun b s1 h1 => (by cases h1), fun s1 h1 => (by cases h1)⟩
    · rw [h]
      simp only
      have hfr := restart_frame fromURL s d
      have he : (restart fromURL s d).err = s.err := by rw [hfr]
      have hc : (restart fromURL s d).curDomain = s.curDomain := by rw [hfr]
      have hu : (restart fromURL s d).curUrl = s.curUrl := by rw [hfr]
      obtain ⟨ih1, ih2⟩ := ih (restart fromURL s d)
      rw [he, hc, hu] at ih1 ih2
      exact ⟨ih1, ih2⟩
    · rw [h]
      constructor
      · intro b s1 h1
        cases h1
        exact ⟨id, fun hb => (by cases hb), fun _ => ⟨rfl, rfl⟩⟩
      · intro s1 h1
        cases h1
    · rw [h]
      constructor
      · intro b s1 h1
        cases h1
        exact ⟨fun _ => (by simp), fun hb => (by cases hb), fun _ => ⟨rfl, rfl⟩⟩
      · intro s1 h1
        cases h1
    · rw [h]
      constructor
      · intro b s1 h1
        cases h1
        exact ⟨id, fun _ => (by simp), fun hb => (by cases hb)⟩
      · intro s1 h1
        cases h1

theorem Next_keeps (fromURL : String → String) (sigs : List Signal) (s : Scheduler) :
    (∀ b s1, Next fromURL s sigs = Outcome.returned b s1 →
      (s.err ≠ none → s1.err ≠ none) ∧
      (b = true → s1.curDomain ≠ none) ∧
      (b = false → s1.curDomain = s.curDomain ∧ s1.curUrl = s.curUrl)) ∧
    (∀ s1, Next fromURL s sigs = Outcome.waiting s1 →
      (s.err ≠ none → s1.err ≠ none) ∧
      s1.curDomain = s.curDomain ∧ s1.curUrl = s.curUrl) := by
  unfold Next
  by_cases hlen : s.queues.length = 0
  · simp only [hlen, if_true]
    constructor
    · intro b s1 h1
      cases h1
      exact ⟨id, fun hb => (by cases hb), fun _ => ⟨rfl, rfl⟩⟩
    · intro s1 h1
      cases h1
  · simp only [hlen, if_false]
    exact loop_keeps fromURL sigs s

end Scheduler

theorem step_keeps (fromURL : String → String) (s s1 : Scheduler) (op : Op)
    (r : Option Bool) (h : step fromURL s op = some (s1, r)) :
    (s.err ≠ none → s1.err ≠ none) ∧
    (r = some true → s1.curDomain ≠ none) ∧
    (r ≠ some true → s1.curDomain = s.curDomain ∧ s1.curUrl = s.curUrl) ∧
    ((∀ sigs, op ≠ Op.next sigs) → r = none) := by
  cases op with
  | next sigs =>
    simp only [step] at h
    cases hn : Scheduler.Next fromURL s sigs with
    | returned b s2 =>
      simp only [hn, Option.some.injEq, Prod.mk.injEq] at h
      obtain ⟨rfl, rfl⟩ := h
      obtain ⟨h1, h2, h3⟩ := (Scheduler.Next_keeps fromURL sigs s).1 b s2 hn
      refine ⟨h1, fun hb => h2 (by simpa using hb), fun hb => h3 ?_, fun hno => absurd rfl (hno sigs)⟩
      cases b
      · rfl
      · exact absurd rfl hb
    | waiting s2 => simp [hn] at h
    | blocked => simp [hn] at h
    | panicked => simp [hn] at h
  | add url =>
    simp only [step, Option.some.injEq, Prod.mk.injEq] at h
    obtain ⟨rfl, rfl⟩ := h
    rw [Scheduler.Add_frame]
    exact ⟨id, fun hb => (by cases hb), fun _ => ⟨rfl, rfl⟩, fun _ => rfl⟩
  | cur p =>
    simp only [step] at h
    cases hc : Scheduler.Cur s p with
    | none => simp [hc] at h
    | some x =>
      simp only [hc, Option.some.injEq, Prod.mk.injEq] at h
      obtain ⟨rfl, rfl⟩ := h
      exact ⟨id, fun hb => (by cases hb), fun _ => ⟨rfl, rfl⟩, fun _ => rfl⟩
  | update p =>
    simp only [step, Option.some.injEq, Prod.mk.injEq] at h
    obtain ⟨rfl, rfl⟩ := h
    exact ⟨id, fun hb => (by cases hb), fun _ => ⟨rfl, rfl⟩, fun _ => rfl⟩
  | once =>
    simp only [step, Option.some.injEq, Prod.mk.injEq] at h
    obtain ⟨rfl, rfl⟩ := h
    exact ⟨id, fun hb => (by cases hb), fun _ => ⟨rfl, rfl⟩, fun _ => rfl⟩
  | stop =>
    simp only [step] at h
    cases hs : Scheduler.Stop s with
    | none => simp [hs] at h
    | some s2 =>
      simp only [hs, Option.some.injEq, Prod.mk.injEq] at h
      obtain ⟨rfl, rfl⟩ := h
      obtain ⟨hs2, _⟩ := Scheduler.Stop_eq_some s s2 hs
      rw [hs2]
      exact ⟨id, fun hb => (by cases hb), fun _ => ⟨rfl, rfl⟩, fun _ => rfl⟩
  | pacerStart d =>
    simp only [step, Option.some.injEq, Prod.mk.injEq] at h
    obtain ⟨rfl, rfl⟩ := h
    rw [Scheduler.restart_frame]
    exact ⟨id, fun hb => (by cases hb), fun _ => ⟨rfl, rfl⟩, fun _ => rfl⟩
  | pacerExit =>
    simp only [step, Scheduler.pacerExit] at h
    by_cases h0 : s.shutdown.len = 0
    · simp [h0] at h
    · simp only [h0, if_false, Option.some.injEq, Prod.mk.injEq] at h
      obtain ⟨rfl, rfl⟩ := h
      exact ⟨id, fun hb => (by cases hb), fun _ => ⟨rfl, rfl⟩, fun _ => rfl⟩
  | backend k f =>
    simp only [step, Option.some.injEq, Prod.mk.injEq] at h
    obtain ⟨rfl, rfl⟩ := h
    unfold Scheduler.backend
    cases s.queues.get k with
    | none => exact ⟨id, fun hb => (by cases hb), fun _ => ⟨rfl, rfl⟩, fun _ => rfl⟩
    | some q => exact ⟨id, fun hb => (by cases hb), fun _ => ⟨rfl, rfl⟩, fun _ => rfl⟩

end Spider

namespace Spider

theorem run_keeps_cursor (fromURL : String → String) (ops : List Op) (s : Scheduler)
    (log : List Bool) (s1 : Scheduler) (log1 : List Bool)
    (h : s.curDomain ≠ none ↔ true ∈ log) (hrun : run fromURL s log ops = some (s1, log1)) :
    (s1.curDomain ≠ none ↔ true ∈ log1) := by
  induction ops generalizing s log with
  | nil =>
    simp only [run, Option.some.injEq, Prod.mk.injEq] at hrun
    obtain ⟨rfl, rfl⟩ := hrun
    exact h
  | cons op ops ih =>
    simp only [run] at hrun
    cases hst : step fromURL s op with
    | none => simp [hst] at hrun
    | some x =>
      obtain ⟨s2, r⟩ := x
      obtain ⟨_, hk1, hk2, _⟩ := step_keeps fromURL s s2 op r hst
      cases r with
      | none =>
        simp only [hst] at hrun
        refine ih s2 log ?_ hrun
        rw [(hk2 (by simp)).1]
        exact h
      | some b =>
        simp only [hst] at hrun
        refine ih s2 (b :: log) ?_ hrun
        cases b with
        | true =>
          constructor
          · intro _
            exact List.mem_cons_self _ _
          · intro _
            exact hk1 rfl
        | false =>
          rw [(hk2 (by simp)).1]
          simp only [List.mem_cons, Bool.true_eq_false, false_or]
          exact h

namespace Scheduler

theorem Start_frame (s : Scheduler) : Start s = { s with queues := (Start s).queues } := by
  unfold Start
  generalize s.config.Domains = ds
  induction ds generalizing s with
  | nil => rfl
  | cons d ds ih =>
    simp only [List.foldl_cons]
    rw [ih]

theorem New_cursor (q : Queue) (store : Storage) : (New q store).1.curDomain = none := by
  unfold New
  simp only
  cases hg : store.GetConfig { Domains := [] } with
  | mk c e =>
    cases e with
    | some e => rfl
    | none =>
      simp only
      rw [Start_frame]

end Scheduler

/-- C7: once the terminal error is non-nil it stays non-nil through every
sequence of operations of the consumer (Next, Add, Cur, Update, Once, Stop)
and of the environment (pacers, queue backend): no operation clears it. -/
theorem err_never_cleared (fromURL : String → String) (ops : List Op) (s s1 : Scheduler)
    (log log1 : List Bool)
    (h : s.Err ≠ none) (hrun : run fromURL s log ops = some (s1, log1)) :
    s1.Err ≠ none := by
  unfold Scheduler.Err at h ⊢
  induction ops generalizing s log with
  | nil =>
    simp only [run, Option.some.injEq, Prod.mk.injEq] at hrun
    obtain ⟨rfl, _⟩ := hrun
    exact h
  | cons op ops ih =>
    simp only [run] at hrun
    cases hst : step fromURL s op with
    | none => simp [hst] at hrun
    | some x =>
      obtain ⟨s2, r⟩ := x
      have hk := (step_keeps fromURL s s2 op r hst).1 h
      cases r with
      | none =>
        simp only [hst] at hrun
        exact ih s2 log hk hrun
      | some b =>
        simp only [hst] at hrun
        exact ih s2 (b :: log) hk hrun

theorem err_never_cleared_witness :
    erroredCom.Err ≠ none ∧
    ({ exampleNew with curDomain := some exampleCom, curUrl := "https://example.com/",
                       err := some (Error.other "io") } : Scheduler).Err ≠ none :=
  ⟨by decide,
   err_never_cleared hostOf
     [Op.backend "example.com" none, Op.next [Signal.ready exampleCom]]
     erroredCom
     { exampleNew with curDomain := some exampleCom, curUrl := "https://example.com/",
                       err := some (Error.other "io") }
     [] [true] (by decide) (by decide)⟩

/-- C7 as stated fails: the backend of the queue fails once, Next returns
false and records the error; the backend recovers, and the next call of Next
returns true while the terminal error is still set. -/
theorem Next_resumes_after_error :
    (run hostOf exampleNew [] transientFaultOps).map (fun r => (r.1.Err, r.1.curUrl, r.2)) =
      some (some (Error.other "io"), "https://example.com/", [true, false]) := by
  decide

/-- C10: the cursor is undefined in the scheduler New returns; after any
sequence of operations from there it is defined exactly when some call of Next
has returned true; an operation that is not a call of Next returning true
leaves the cursor as it was, which holds of Add, Cur, Update, Once and Stop
(they return no Next result) and of a call of Next that returns false; and a
call of Next that returns true leaves it defined. -/
theorem cursor_defined_iff_yielded (fromURL : String → String) :
    (∀ q store, (Scheduler.New q store).1.curDomain = none) ∧
    (∀ q store ops s1 log1,
      run fromURL (Scheduler.New q store).1 [] ops = some (s1, log1) →
      (s1.curDomain ≠ none ↔ true ∈ log1)) ∧
    (∀ s op s1 r, step fromURL s op = some (s1, r) → r ≠ some true →
      s1.curDomain = s.curDomain ∧ s1.curUrl = s.curUrl) ∧
    (∀ s op s1 r, step fromURL s op = some (s1, r) → (∀ sigs, op ≠ Op.next sigs) →
      r = none) ∧
    (∀ s op s1, step fromURL s op = some (s1, some true) → s1.curDomain ≠ none) := by
  refine ⟨Scheduler.New_cursor, ?_, ?_, ?_, ?_⟩
  · intro q store ops s1 log1 hrun
    refine run_keeps_cursor fromURL ops _ [] s1 log1 ?_ hrun
    rw [Scheduler.New_cursor]
    simp
  · intro s op s1 r hst hr
    exact (step_keeps fromURL s s1 op r hst).2.2.1 hr
  · intro s op s1 r hst hop
    exact (step_keeps fromURL s s1 op r hst).2.2.2 hop
  · intro s op s1 hst
    exact (step_keeps fromURL s s1 op (some true) hst).2.1 rfl

theorem cursor_defined_iff_yielded_witness :
    (({ exampleNew with curDomain := some exampleCom, curUrl := "https://example.com/",
                        shutdown := { len := 1, cap := 2 } } : Scheduler).curDomain ≠ none ↔
      true ∈ [false, true]) :=
  (cursor_defined_iff_yielded hostOf).2.1 memQueue exampleStore yieldThenStopOps _ _
    (by decide)

/-- C10 as stated fails: Next yields the seed, Stop is called, the following
Next receives the shutdown token and returns false; the most recent call of
Next returned false and the cursor still holds the domain and URL yielded
before. -/
theorem cursor_survives_false_Next :
    (run hostOf exampleNew [] yieldThenStopOps).map
        (fun r => (r.2.head?, r.1.curDomain, r.1.curUrl)) =
      some (some false, some exampleCom, "https://example.com/") := by
  decide

end Spider

namespace Spider

theorem Next_reseeds_when_empty_witness :
    Scheduler.Next hostOf exampleNew [Signal.ready exampleCom] =
      Outcome.waiting (Scheduler.restart hostOf exampleNew exampleCom) ∧
    run hostOf exampleNew []
        [Op.pacerStart exampleCom, Op.next [Signal.ready exampleCom],
         Op.cur (Page.ofURL ""), Op.update fetchedPage,
         Op.next [Signal.ready exampleCom, Signal.ready exampleCom]] =
      some ({ exampleNew with
                curDomain := some exampleCom, curUrl := "https://example.com/",
                store := (exampleStore.SavePage fetchedPage).1 }, [true, true]) :=
  ⟨((Scheduler.Next_reseeds_when_empty hostOf).1 exampleNew exampleCom memQueue []
      rfl (by decide) rfl rfl).2.1,
   (Scheduler.Next_reseeds_when_empty hostOf).2 (by decide) (Page.ofURL "") fetchedPage⟩

/-- C4 as stated fails: the only seed of the domain lies on another host, for
which no queue is registered; Next reseeds on the first readiness signal, the
queue of the domain stays empty, and the next readiness signal for the domain
yields no URL: the call is still waiting. -/
theorem Next_reseed_misses_own_queue :
    strayNew.once = false ∧ strayNew.queues.get strayCom.Domain = some memQueue ∧
    Scheduler.Next hostOf strayNew [Signal.ready strayCom, Signal.ready strayCom] =
      Outcome.waiting strayNew := by
  decide

theorem restart_fills_own_queue_witness :
    (Scheduler.restart hostOf exampleNew exampleCom).queues.get exampleCom.Domain =
      some (memQueue.push exampleCom.reseedURLs) ∧
    (memQueue.push exampleCom.reseedURLs).items = ["https://example.com/"] :=
  ⟨(Scheduler.restart_fills_own_queue hostOf exampleNew exampleCom memQueue
      (by decide) rfl (by decide)).1,
   by decide⟩

/-- C8 as stated fails, in two ways.  The domain example.com is configured
with the single seed https://example.org/start: its queue is registered and
empty when its pacer is created, and after the startup reseed it is still
empty.  And with the seed on its own host but a failing queue backend, Enqueue
returns an error that restart drops, and the queue is still empty. -/
theorem restart_leaves_queue_empty :
    (strayNew.config.Domains = [strayCom] ∧
      strayNew.queues.get strayCom.Domain = some { items := [], fault := none } ∧
      (Scheduler.restart hostOf strayNew strayCom).queues.get strayCom.Domain =
        some { items := [], fault := none }) ∧
    (faultyNew.config.Domains = [exampleCom] ∧
      faultyNew.queues.get exampleCom.Domain = some { items := [], fault := some "io" } ∧
      (Scheduler.restart hostOf faultyNew exampleCom).queues.get exampleCom.Domain =
        some { items := [], fault := some "io" }) := by
  decide

theorem Next_err_iff_dequeue_failed_witness :
    Scheduler.Next.DequeueFailed hostOf faultyCom [Signal.ready exampleCom]
      (Error.other "io") :=
  ((((Scheduler.Next_err_iff_dequeue_failed hostOf faultyCom [Signal.ready exampleCom]
      rfl).1 false erroredCom (by decide)).1 (Error.other "io")).mp (by decide)).2

end Spider

namespace Spider

theorem find?_filter_of_imp (P Q : Page → Bool) (l : List Page) (p : Page)
    (himp : ∀ x, P x = true → Q x = true) (h : l.find? P = some p) :
    (l.filter Q).find? P = some p := by
  induction l with
  | nil => simp at h
  | cons a l ih =>
    by_cases hP : P a = true
    · have hQ := himp a hP
      simp only [List.find?_cons, hP] at h
      simp [List.filter_cons, hQ, List.find?_cons, hP, h]
    · simp only [List.find?_cons, hP] at h
      by_cases hQ : Q a = true
      · simp [List.filter_cons, hQ, List.find?_cons, hP, ih h]
      · simp [List.filter_cons, hQ, ih h]

theorem Storage.SavePage_holds (st : Storage) (p : Page) (h : (st.SavePage p).2 = none) :
    (st.SavePage p).1.fault = none ∧
    (st.SavePage p).1.pages.find? (fun r => r.URL == p.URL) = some p := by
  unfold Storage.SavePage at h ⊢
  cases hf : st.fault with
  | some m => simp [hf] at h
  | none => simp [hf]

theorem Storage.SavePage_keeps (st : Storage) (p q : Page) (hne : q.URL ≠ p.URL)
    (hf : st.fault = none) (hp : st.pages.find? (fun r => r.URL == p.URL) = some p) :
    (st.SavePage q).1.fault = none ∧
    (st.SavePage q).1.pages.find? (fun r => r.URL == p.URL) = some p := by
  unfold Storage.SavePage
  simp only [hf, true_and]
  have hq : (q.URL == p.URL) = false := by simpa using hne
  rw [List.find?_cons, hq]
  apply find?_filter_of_imp _ _ _ _ _ hp
  intro x hx
  have hx1 : x.URL = p.URL := by simpa using hx
  simp only [bne_iff_ne, ne_eq]
  rw [hx1]
  exact fun h => hne h.symm

theorem Storage.GetPage_of_holds (st : Storage) (p p0 : Page) (hf : st.fault = none)
    (hp : st.pages.find? (fun r => r.URL == p.URL) = some p) :
    st.GetPage p.URL p0 = (p, none) := by
  simp [Storage.GetPage, hf, hp]

namespace Scheduler

theorem loop_store (fromURL : String → String) (sigs : List Signal) (s : Scheduler) :
    (∀ b s1, Next.loop fromURL s sigs = Outcome.returned b s1 → s1.store = s.store) ∧
    (∀ s1, Next.loop fromURL s sigs = Outcome.waiting s1 → s1.store = s.store) := by
  induction sigs generalizing s with
  | nil =>
    simp only [Next.loop]
    exact ⟨fun b s1 h => (by cases h), fun s1 h => (by cases h; rfl)⟩
  | cons sig rest ih =>
    simp only [Next.loop]
    rcases body_cases fromURL s sig with h | h | h | ⟨d, h⟩ | ⟨c, h⟩ | ⟨e, h⟩ | ⟨d, u, qs, h⟩
    · rw [h]
      exact ⟨fun b s1 h1 => (by cases h1), fun s1 h1 => (by cases h1; rfl)⟩
    · rw [h]
      exact ⟨fun b s1 h1 => (by cases h1), fun s1 h1 => (by cases h1)⟩
    · rw [h]
      exact ⟨fun b s1 h1 => (by cases h1), fun s1 h1 => (by cases h1)⟩
    · rw [h]
      simp only
      have hst : (restart fromURL s d).store = s.store := by rw [restart_frame]
      obtain ⟨ih1, ih2⟩ := ih (restart fromURL s d)
      rw [hst] at ih1 ih2
      exact ⟨ih1, ih2⟩
    · rw [h]
      exact ⟨fun b s1 h1 => (by cases h1; rfl), fun s1 h1 => (by cases h1)⟩
    · rw [h]
      exact ⟨fun b s1 h1 => (by cases h1; rfl), fun s1 h1 => (by cases h1)⟩
    · rw [h]
      exact ⟨fun b s1 h1 => (by cases h1; rfl), fun s1 h1 => (by cases h1)⟩

end Scheduler

theorem step_store (fromURL : String → String) (s s1 : Scheduler) (op : Op)
    (r : Option Bool) (h : step fromURL s op = some (s1, r)) :
    ((∀ q, op ≠ Op.update q) → s1.store = s.store) ∧
    (∀ q, op = Op.update q → s1.store = (s.store.SavePage q).1) := by
  cases op with
  | next sigs =>
    refine ⟨fun _ => ?_, fun q hq => (by cases hq)⟩
    simp only [step] at h
    cases hn : Scheduler.Next fromURL s sigs with
    | returned b s2 =>
      simp only [hn, Option.some.injEq, Prod.mk.injEq] at h
      obtain ⟨rfl, rfl⟩ := h
      unfold Scheduler.Next at hn
      by_cases hlen : s.queues.length = 0
      · simp only [hlen, if_true, Outcome.returned.injEq] at hn
        rw [hn.2]
      · simp only [hlen, if_false] at hn
        exact (Scheduler.loop_store fromURL sigs s).1 b s2 hn
    | waiting s2 => simp [hn] at h
    | blocked => simp [hn] at h
    | panicked => simp [hn] at h
  | add url =>
    simp only [step, Option.some.injEq, Prod.mk.injEq] at h
    obtain ⟨rfl, rfl⟩ := h
    refine ⟨fun _ => ?_, fun q hq => (by cases hq)⟩
    rw [Scheduler.Add_frame]
  | cur p =>
    simp only [step] at h
    cases hc : Scheduler.Cur s p with
    | none => simp [hc] at h
    | some x =>
      simp only [hc, Option.some.injEq, Prod.mk.injEq] at h
      obtain ⟨rfl, rfl⟩ := h
      exact ⟨fun _ => rfl, fun q hq => (by cases hq)⟩
  | update p =>
    simp only [step, Option.some.injEq, Prod.mk.injEq] at h
    obtain ⟨rfl, rfl⟩ := h
    refine ⟨fun hno => absurd rfl (hno p), fun q hq => ?_⟩
    cases hq
    rfl
  | once =>
    simp only [step, Option.some.injEq, Prod.mk.injEq] at h
    obtain ⟨rfl, rfl⟩ := h
    exact ⟨fun _ => rfl, fun q hq => (by cases hq)⟩
  | stop =>
    simp only [step] at h
    cases hs : Scheduler.Stop s with
    | none => simp [hs] at h
    | some s2 =>
      simp only [hs, Option.some.injEq, Prod.mk.injEq] at h
      obtain ⟨rfl, rfl⟩ := h
      obtain ⟨hs2, _⟩ := Scheduler.Stop_eq_some s s2 hs
      rw [hs2]
      exact ⟨fun _ => rfl, fun q hq => (by cases hq)⟩
  | pacerStart d =>
    simp only [step, Option.some.injEq, Prod.mk.injEq] at h
    obtain ⟨rfl, rfl⟩ := h
    refine ⟨fun _ => ?_, fun q hq => (by cases hq)⟩
    rw [Scheduler.restart_frame]
  | pacerExit =>
    simp only [step, Scheduler.pacerExit] at h
    by_cases h0 : s.shutdown.len = 0
    · simp [h0] at h
    · simp only [h0, if_false, Option.some.injEq, Prod.mk.injEq] at h
      obtain ⟨rfl, rfl⟩ := h
      exact ⟨fun _ => rfl, fun q hq => (by cases hq)⟩
  | backend k f =>
    simp only [step, Option.some.injEq, Prod.mk.injEq] at h
    obtain ⟨rfl, rfl⟩ := h
    refine ⟨fun _ => ?_, fun q hq => (by cases hq)⟩
    unfold Scheduler.backend
    cases s.queues.get k <;> rfl

theorem run_store_holds (fromURL : String → String) (p : Page) (ops : List Op)
    (s : Scheduler) (log : List Bool) (s1 : Scheduler) (log1 : List Bool)
    (hf : s.store.fault = none)
    (hp : s.store.pages.find? (fun r => r.URL == p.URL) = some p)
    (hops : ∀ q, Op.update q ∈ ops → q.URL ≠ p.URL)
    (hrun : run fromURL s log ops = some (s1, log1)) :
    s1.store.fault = none ∧
    s1.store.pages.find? (fun r => r.URL == p.URL) = some p := by
  induction ops generalizing s log with
  | nil =>
    simp only [run, Option.some.injEq, Prod.mk.injEq] at hrun
    obtain ⟨rfl, _⟩ := hrun
    exact ⟨hf, hp⟩
  | cons op ops ih =>
    simp only [run] at hrun
    cases hst : step fromURL s op with
    | none => simp [hst] at hrun
    | some x =>
      obtain ⟨s2, r⟩ := x
      obtain ⟨hk1, hk2⟩ := step_store fromURL s s2 op r hst
      have hinv : s2.store.fault = none ∧
          s2.store.pages.find? (fun r => r.URL == p.URL) = some p := by
        by_cases hup : ∃ q, op = Op.update q
        · obtain ⟨q, hq⟩ := hup
          rw [hk2 q hq]
          have hne : q.URL ≠ p.URL := hops q (by rw [hq]; exact List.mem_cons_self _ _)
          exact Storage.SavePage_keeps s.store p q hne hf hp
        · have hno : ∀ q, op ≠ Op.update q := fun q hq => hup ⟨q, hq⟩
          rw [hk1 hno]
          exact ⟨hf, hp⟩
      have hops2 : ∀ q, Op.update q ∈ ops → q.URL ≠ p.URL :=
        fun q hq => hops q (List.mem_cons_of_mem _ hq)
      cases r with
      | none =>
        simp only [hst] at hrun
        exact ih s2 log hinv.1 hinv.2 hops2 hrun
      | some b =>
        simp only [hst] at hrun
        exact ih s2 (b :: log) hinv.1 hinv.2 hops2 hrun

namespace Scheduler

/-- C9: with the cursor at (d, u), Cur reports the domain d and: when the
store has no record for u (GetPage fails with ErrNotFound), no error and the
page that carries u as URL and zero values elsewhere; when GetPage fails with
any other error, that error.  And when a page p was saved by a call of
Update(p) that returned no error, and the operations since saved no other
page under the URL of p, Cur with the cursor at (d, URL of p) returns no error
and reports exactly p. -/
theorem Cur_reports_claim (fromURL : String → String) :
    (∀ (s : Scheduler) (d : Domain) (p0 : Page), s.curDomain = some d →
      ((s.store.GetPage s.curUrl p0).2 = some Error.ErrNotFound →
        Cur s p0 = some (d, Page.ofURL s.curUrl, none) ∧
        (Page.ofURL s.curUrl).URL = s.curUrl ∧ (Page.ofURL s.curUrl).Rest = []) ∧
      (∀ e, e ≠ Error.ErrNotFound → (s.store.GetPage s.curUrl p0).2 = some e →
        Cur s p0 = some (d, (s.store.GetPage s.curUrl p0).1, some e))) ∧
    (∀ (s0 s : Scheduler) (p p0 : Page) (d : Domain) (ops : List Op) (log log1 : List Bool),
      (Update s0 p).2 = none →
      run fromURL (Update s0 p).1 log ops = some (s, log1) →
      (∀ q, Op.update q ∈ ops → q.URL ≠ p.URL) →
      s.curDomain = some d → s.curUrl = p.URL →
      Cur s p0 = some (d, p, none)) := by
  constructor
  · intro s d p0 hd
    constructor
    · intro h
      refine ⟨?_, rfl, rfl⟩
      unfold Cur
      rw [hd]
      simp only
      cases hg : s.store.GetPage s.curUrl p0 with
      | mk p1 e =>
        rw [hg] at h
        simp only at h
        subst h
        rfl
    · intro e hne h
      unfold Cur
      rw [hd]
      simp only
      cases hg : s.store.GetPage s.curUrl p0 with
      | mk p1 e1 =>
        rw [hg] at h
        simp only at h
        subst h
        cases e with
        | ErrNotFound => exact absurd rfl hne
        | ErrQueueNotFound => rfl
        | ErrEmpty => rfl
        | other m => rfl
  · intro s0 s p p0 d ops log log1 hup hrun hops hd hurl
    have hsave : (s0.store.SavePage p).2 = none := hup
    obtain ⟨hf0, hp0⟩ := Storage.SavePage_holds s0.store p hsave
    obtain ⟨hf, hp⟩ := run_store_holds fromURL p ops (Update s0 p).1 log s log1 hf0 hp0 hops hrun
    unfold Cur
    rw [hd, hurl, Storage.GetPage_of_holds s.store p p0 hf hp]

end Scheduler

theorem Cur_reports_claim_witness :
    Scheduler.Cur yieldedCom (Page.ofURL "") =
      some (exampleCom, Page.ofURL "https://example.com/", none) ∧
    Scheduler.Cur
        { yieldedCom with store := (exampleStore.SavePage fetchedPage).1 } (Page.ofURL "") =
      some (exampleCom, fetchedPage, none) :=
  ⟨(((Scheduler.Cur_reports_claim hostOf).1 yieldedCom exampleCom (Page.ofURL "") rfl).1
      (by decide)).1,
   (Scheduler.Cur_reports_claim hostOf).2 exampleNew
      { yieldedCom with store := (exampleStore.SavePage fetchedPage).1 }
      fetchedPage (Page.ofURL "") exampleCom
      [Op.pacerStart exampleCom, Op.next [Signal.ready exampleCom]] [] [true]
      (by decide) (by decide) (by simp) rfl rfl⟩

end Spider
